import Mathlib

/-!
Shallow embedding of `src/analyze.py` (AWS tag analyzer) and verification of
its specification claims.

The embedding models:
- `fetch_resource_tags`  : paginated fetch with retry over an upstream oracle;
- `filter_tags` / `tag_matches` : the tag filter;
- `json_to_csv` (split into `sorted_tags`, `resource_type`, `fillTagValues`,
  `projectRows`) : the matrix projector, full and focused modes;
- `generate_summary_csv` / `generate_focused_summary_csv` : the aggregator.

Python dictionaries are modelled as functions `String → Option String`
(`none` = key absent); the `while True` fetch loop is modelled with explicit
fuel, `none` meaning the fuel ran out (the real loop would still be running);
a raised exception is an `Except.error` (for the fetcher) or an `Option.none`
result (for the projector, whose only exception is the `IndexError` from
`arn.split(":")[2]`).
-/

namespace AwsTagAnalyzer

/-- A tag entry `{"Key": key, "Value": value}`. -/
structure Tag where
  key : String
  value : String
deriving DecidableEq, Repr

/-- A record of `ResourceTagMappingList`: `{"ResourceARN": arn, "Tags": tags}`. -/
structure Resource where
  arn : String
  tags : List Tag
deriving DecidableEq, Repr

/-! ## Paginated fetcher (`fetch_resource_tags`, analyze.py lines 31-72) -/

/-- Outcome of one `subprocess.run` invocation of the AWS CLI:
non-zero exit status, a zero exit whose stdout is not parseable JSON, or a
parsed page carrying records and an optional pagination token. -/
inductive CallResult where
  | fail
  | badJson
  | page (records : List Resource) (token : Option String)
deriving DecidableEq, Repr

/-- The two exceptions `fetch_resource_tags` can raise: the `RuntimeError`
after the retry budget is spent, and the re-raised `json.JSONDecodeError`. -/
inductive FetchErr where
  | retriesExhausted
  | jsonDecodeError
deriving DecidableEq, Repr

/-- The `while True` loop of `fetch_resource_tags`. `upstream` gives the
outcome of the n-th CLI invocation of this fetch; `call` counts invocations,
`retries` is the shared retry counter, `tok` the current `next_token`, `acc`
the accumulated `resources`. Fuel bounds the loop; `none` = fuel ran out. -/
def fetchGo (upstream : Nat → CallResult) (maxRetries : Nat) :
    Nat → Nat → Nat → Option String → List Resource →
    Option (Except FetchErr (List Resource))
  | 0, _, _, _, _ => none
  | fuel + 1, call, retries, tok, acc =>
    match upstream call with
    | .fail =>
        if retries + 1 ≥ maxRetries then some (.error .retriesExhausted)
        else fetchGo upstream maxRetries fuel (call + 1) (retries + 1) tok acc
    | .badJson => some (.error .jsonDecodeError)
    | .page recs t =>
        match t with
        | none => some (.ok (acc ++ recs))
        | some s =>
            if s = "" then some (.ok (acc ++ recs))
            else fetchGo upstream maxRetries fuel (call + 1) retries (some s) (acc ++ recs)

/-- `fetch_resource_tags(region, max_retries=3)`: run the loop from the
initial state (`next_token = None`, `retries = 0`, `resources = []`). -/
def fetch_resource_tags (upstream : Nat → CallResult) (fuel : Nat)
    (maxRetries : Nat := 3) : Option (Except FetchErr (List Resource)) :=
  fetchGo upstream maxRetries fuel 0 0 none []

/-- A 3-page upstream trace: sizes 2, 2, 1 with pagination tokens A, B, none. -/
def upstreamPages3 : Nat → CallResult
  | 0 => .page [⟨"arn:aws:svc:r1", []⟩, ⟨"arn:aws:svc:r2", []⟩] (some "A")
  | 1 => .page [⟨"arn:aws:svc:r3", []⟩, ⟨"arn:aws:svc:r4", []⟩] (some "B")
  | _ => .page [⟨"arn:aws:svc:r5", []⟩] none

/-- Claim C1: the fetch raises iff the retry budget is exhausted or a
successful call's body is not parseable JSON. (1) A non-zero exit with budget
remaining increments the single shared retry counter and loops with the same
cursor and the same accumulated pages (nothing discarded); (2) a non-zero
exit that exhausts the budget (`retries >= max_retries` after the increment)
raises the terminal `RuntimeError`; (3) an unparseable body raises
immediately, at any retry count (never retried); (4) if every upstream call
succeeds and parses, the fetch never raises. -/
theorem claim_C1_fetch_error_protocol :
    (∀ upstream maxRetries fuel call retries tok acc,
        upstream call = CallResult.fail → retries + 1 < maxRetries →
        fetchGo upstream maxRetries (fuel + 1) call retries tok acc
          = fetchGo upstream maxRetries fuel (call + 1) (retries + 1) tok acc)
  ∧ (∀ upstream maxRetries fuel call retries tok acc,
        upstream call = CallResult.fail → maxRetries ≤ retries + 1 →
        fetchGo upstream maxRetries (fuel + 1) call retries tok acc
          = some (.error .retriesExhausted))
  ∧ (∀ upstream maxRetries fuel call retries tok acc,
        upstream call = CallResult.badJson →
        fetchGo upstream maxRetries (fuel + 1) call retries tok acc
          = some (.error .jsonDecodeError))
  ∧ (∀ upstream maxRetries fuel call retries tok acc e,
        (∀ j, ∃ recs t, upstream j = CallResult.page recs t) →
        fetchGo upstream maxRetries fuel call retries tok acc
          ≠ some (.error e)) := by
  refine ⟨?_, ?_, ?_, ?_⟩
  · intro upstream maxRetries fuel call retries tok acc hfail hlt
    have hnot : ¬ (retries + 1 ≥ maxRetries) := by omega
    simp [fetchGo, hfail, hnot]
  · intro upstream maxRetries fuel call retries tok acc hfail hge
    simp [fetchGo, hfail, hge]
  · intro upstream maxRetries fuel call retries tok acc hbad
    simp [fetchGo, hbad]
  · intro upstream maxRetries fuel
    induction fuel with
    | zero =>
        intro call retries tok acc e _
        simp [fetchGo]
    | succ n ih =>
        intro call retries tok acc e hup
        obtain ⟨recs, t, hcall⟩ := hup call
        cases t with
        | none => simp [fetchGo, hcall]
        | some s =>
            by_cases hs : s = ""
            · simp [fetchGo, hcall, hs]
            · simpa [fetchGo, hcall, hs] using
                ih (call + 1) retries (some s) (acc ++ recs) e hup

/-- Claim C1 witness: with `max_retries = 3` and the retry counter at 2, a
failing call raises the terminal error. -/
theorem claim_C1_fetch_error_protocol_witness :
    fetchGo (fun _ => CallResult.fail) 3 1 0 2 none []
      = some (.error .retriesExhausted) :=
  claim_C1_fetch_error_protocol.2.1 (fun _ => CallResult.fail) 3 0 0 2 none []
    rfl (by omega)

/-- Claim C2: (1) a successful page with a (non-empty) pagination token
appends its records to the accumulator in arrival order and advances the
cursor to that token; (2) a successful page with no token appends its records
and terminates the loop with the accumulated result; (3) three pages of sizes
2, 2, 1 with cursors A, B, none yield the 5 resources in arrival order;
(4) an empty first page with no token yields an empty result, not an error. -/
theorem claim_C2_pagination_accumulation :
    (∀ upstream maxRetries fuel call retries tok acc recs s, s ≠ "" →
        upstream call = CallResult.page recs (some s) →
        fetchGo upstream maxRetries (fuel + 1) call retries tok acc
          = fetchGo upstream maxRetries fuel (call + 1) retries (some s)
              (acc ++ recs))
  ∧ (∀ upstream maxRetries fuel call retries tok acc recs,
        upstream call = CallResult.page recs none →
        fetchGo upstream maxRetries (fuel + 1) call retries tok acc
          = some (.ok (acc ++ recs)))
  ∧ fetch_resource_tags upstreamPages3 3
      = some (.ok [⟨"arn:aws:svc:r1", []⟩, ⟨"arn:aws:svc:r2", []⟩,
                   ⟨"arn:aws:svc:r3", []⟩, ⟨"arn:aws:svc:r4", []⟩,
                   ⟨"arn:aws:svc:r5", []⟩])
  ∧ fetch_resource_tags (fun _ => CallResult.page [] none) 1
      = some (.ok []) := by
  refine ⟨?_, ?_, ?_, ?_⟩
  · intro upstream maxRetries fuel call retries tok acc recs s hs hcall
    simp [fetchGo, hcall, hs]
  · intro upstream maxRetries fuel call retries tok acc recs hcall
    simp [fetchGo, hcall]
  · rfl
  · rfl

/-- Claim C2 witness: a single empty page with no token terminates with the
accumulator unchanged. -/
theorem claim_C2_pagination_accumulation_witness :
    fetchGo (fun _ => CallResult.page [] none) 3 1 0 0 none []
      = some (.ok []) :=
  claim_C2_pagination_accumulation.2.1 (fun _ => CallResult.page [] none)
    3 0 0 0 none [] [] rfl

/-! ## Tag filter (`filter_tags` / `tag_matches`, analyze.py lines 74-103) -/

/-- The four set-valued fields of a filter document. The Python code reads
them with `filters.get(..., [])`, so each is a list, possibly empty. -/
structure FilterRule where
  include_keys : List String
  exclude_keys : List String
  include_values : List String
  exclude_values : List String
deriving DecidableEq, Repr

/-- `tag_matches` as nested in `filter_tags`: each guard mirrors one
`if cond: return False` line, where a Python non-empty list is truthy. -/
def tag_matches (filters : FilterRule) (tag : Tag) : Bool :=
  if !filters.include_keys.isEmpty && !filters.include_keys.contains tag.key
    then false
  else if !filters.exclude_keys.isEmpty && filters.exclude_keys.contains tag.key
    then false
  else if !filters.include_values.isEmpty
      && !filters.include_values.contains tag.value then false
  else if !filters.exclude_values.isEmpty
      && filters.exclude_values.contains tag.value then false
  else true

/-- `filter_tags`: per resource keep the tags passing `tag_matches`; drop the
resource when none survive. The loop-and-append is a `filterMap`. -/
def filter_tags (tags : List Resource) (filters : FilterRule) : List Resource :=
  tags.filterMap (fun resource =>
    let filteredResourceTags := resource.tags.filter (tag_matches filters)
    if filteredResourceTags.isEmpty then none
    else some { resource with tags := filteredResourceTags })

/-- The per-tag test of `generate_focused_summary_csv` (analyze.py line 198):
`(key in include_keys or value in include_values) and
 (key not in exclude_keys and value not in exclude_values)`. -/
def focusedTagMatch (filters : FilterRule) (tag : Tag) : Bool :=
  (filters.include_keys.contains tag.key
      || filters.include_values.contains tag.value)
    && (!filters.exclude_keys.contains tag.key
        && !filters.exclude_values.contains tag.value)

theorem tag_matches_iff (filters : FilterRule) (tag : Tag) :
    tag_matches filters tag = true ↔
      ((filters.include_keys = [] ∨ tag.key ∈ filters.include_keys)
        ∧ tag.key ∉ filters.exclude_keys
        ∧ (filters.include_values = [] ∨ tag.value ∈ filters.include_values)
        ∧ tag.value ∉ filters.exclude_values) := by
  unfold tag_matches
  by_cases h1 : filters.include_keys = [] <;>
    by_cases h2 : tag.key ∈ filters.include_keys <;>
    by_cases h3 : tag.key ∈ filters.exclude_keys <;>
    by_cases h4 : filters.include_values = [] <;>
    by_cases h5 : tag.value ∈ filters.include_values <;>
    by_cases h6 : tag.value ∈ filters.exclude_values <;>
    simp_all <;>
    first
      | exact fun he => by simp [he] at h3
      | exact fun he => by simp [he] at h6

theorem focusedTagMatch_iff (filters : FilterRule) (tag : Tag) :
    focusedTagMatch filters tag = true ↔
      ((tag.key ∈ filters.include_keys ∨ tag.value ∈ filters.include_values)
        ∧ tag.key ∉ filters.exclude_keys
        ∧ tag.value ∉ filters.exclude_values) := by
  simp [focusedTagMatch]

/-- Claim C3 counterexample: with an all-empty filter rule and the tag
(Team, prod), the Tag Filter's `tag_matches` accepts (empty include sets
match all) while the focused summary's per-tag test rejects (its disjunction
over the two include sets is false), so the two predicates do not agree. -/
theorem claim_C3_counterexample :
    tag_matches ⟨[], [], [], []⟩ ⟨"Team", "prod"⟩ = true
  ∧ focusedTagMatch ⟨[], [], [], []⟩ ⟨"Team", "prod"⟩ = false := by
  exact ⟨rfl, rfl⟩

/-- Claim C3 (amended): the focused coverage summary's per-tag test is the
predicate `(key ∈ include_keys ∨ value ∈ include_values) ∧ key ∉ exclude_keys
∧ value ∉ exclude_values`. It is not the same predicate as `tag_matches`: it
does not honour the empty-include-means-match-all convention. Whenever at
least one include set is non-empty, a tag passing `tag_matches` also passes
the focused test (the converse still fails). -/
theorem claim_C3_focused_predicate_amended :
    (∀ filters tag,
        focusedTagMatch filters tag = true ↔
          ((tag.key ∈ filters.include_keys
              ∨ tag.value ∈ filters.include_values)
            ∧ tag.key ∉ filters.exclude_keys
            ∧ tag.value ∉ filters.exclude_values))
  ∧ (∀ filters tag,
        (filters.include_keys ≠ [] ∨ filters.include_values ≠ []) →
        tag_matches filters tag = true → focusedTagMatch filters tag = true) := by
  refine ⟨focusedTagMatch_iff, ?_⟩
  intro filters tag hne htm
  rw [tag_matches_iff] at htm
  obtain ⟨hik, hek, hiv, hev⟩ := htm
  rw [focusedTagMatch_iff]
  refine ⟨?_, hek, hev⟩
  rcases hne with h | h
  · rcases hik with h0 | h0
    · exact absurd h0 h
    · exact Or.inl h0
  · rcases hiv with h0 | h0
    · exact absurd h0 h
    · exact Or.inr h0

/-- Claim C3 amended witness: with `include_keys = [Team]`, the tag (Team, x)
passes `tag_matches`, hence also the focused test. -/
theorem claim_C3_focused_predicate_amended_witness :
    focusedTagMatch ⟨["Team"], [], [], []⟩ ⟨"Team", "x"⟩ = true :=
  claim_C3_focused_predicate_amended.2 ⟨["Team"], [], [], []⟩ ⟨"Team", "x"⟩
    (Or.inl (by simp)) rfl

/-- Inverting the per-resource step of `filter_tags`: if the step emitted a
resource, the output keeps the arn, its tags are exactly the matching ones,
and at least one tag survived. -/
theorem filter_tags_step_inv (filters : FilterRule) (s r : Resource)
    (h : (if (s.tags.filter (tag_matches filters)).isEmpty then none
          else some { s with tags := s.tags.filter (tag_matches filters) })
           = some r) :
    r.arn = s.arn ∧ r.tags = s.tags.filter (tag_matches filters)
      ∧ r.tags ≠ [] := by
  by_cases he : (s.tags.filter (tag_matches filters)).isEmpty
  · simp [he] at h
  · simp only [he, if_neg, Bool.false_eq_true, not_false_iff, if_false,
      Option.some.injEq] at h
    subst h
    refine ⟨rfl, rfl, ?_⟩
    simpa [List.isEmpty_iff] using he

/-- Claim C5: the filter output corresponds, in order, to a subset of the
input resources: every output resource arises from an input resource with the
same arn and tags exactly the matching ones (a sublist of the originals,
order kept); every output resource has at least one tag; every retained tag
satisfies `tag_matches`; and the arn sequence of the output is a sublist of
the input's arn sequence (resource order preserved, none invented). -/
theorem claim_C5_filter_shape (filters : FilterRule)
    (resources : List Resource) :
    (∀ r ∈ filter_tags resources filters,
        ∃ s ∈ resources, r.arn = s.arn
          ∧ r.tags = s.tags.filter (tag_matches filters)
          ∧ r.tags.Sublist s.tags)
  ∧ (∀ r ∈ filter_tags resources filters, r.tags ≠ [])
  ∧ (∀ r ∈ filter_tags resources filters, ∀ t ∈ r.tags,
        tag_matches filters t = true)
  ∧ ((filter_tags resources filters).map Resource.arn).Sublist
      (resources.map Resource.arn) := by
  refine ⟨?_, ?_, ?_, ?_⟩
  · intro r hr
    rw [filter_tags, List.mem_filterMap] at hr
    obtain ⟨s, hs, hstep⟩ := hr
    obtain ⟨ha, ht, _⟩ := filter_tags_step_inv filters s r hstep
    exact ⟨s, hs, ha, ht, ht ▸ List.filter_sublist _⟩
  · intro r hr
    rw [filter_tags, List.mem_filterMap] at hr
    obtain ⟨s, _, hstep⟩ := hr
    exact (filter_tags_step_inv filters s r hstep).2.2
  · intro r hr t htag
    rw [filter_tags, List.mem_filterMap] at hr
    obtain ⟨s, _, hstep⟩ := hr
    have ht := (filter_tags_step_inv filters s r hstep).2.1
    rw [ht] at htag
    exact List.of_mem_filter htag
  · induction resources with
    | nil => simp [filter_tags]
    | cons a l ih =>
        rw [filter_tags, List.filterMap_cons]
        cases hstep : (if (a.tags.filter (tag_matches filters)).isEmpty
            then none
            else some { a with tags := a.tags.filter (tag_matches filters) })
          with
        | none => exact List.Sublist.cons a.arn (by simpa [filter_tags] using ih)
        | some b =>
            have hb := (filter_tags_step_inv filters a b hstep).1
            simp only [List.map_cons, hb]
            exact List.Sublist.cons₂ a.arn (by simpa [filter_tags] using ih)

/-- Claim C5 witness: on a concrete input, an output resource of the filter
has a non-empty tag list. -/
theorem claim_C5_filter_shape_witness :
    (⟨"arn:aws:s3:b", [⟨"Team", "x"⟩]⟩ : Resource).tags ≠ [] :=
  (claim_C5_filter_shape ⟨["Team"], [], [], []⟩
      [⟨"arn:aws:s3:b", [⟨"Team", "x"⟩]⟩]).2.1
    ⟨"arn:aws:s3:b", [⟨"Team", "x"⟩]⟩ (by simp [filter_tags, tag_matches])

/-! ## Matrix projector (`json_to_csv`, analyze.py lines 105-143) -/

/-- Python's `str.split(":")` over the character list: split at every colon,
keeping empty segments (no separator merging). -/
def splitCharsAux : List Char → List Char → List (List Char)
  | [], cur => [cur.reverse]
  | c :: cs, cur =>
      if c = ':' then cur.reverse :: splitCharsAux cs []
      else splitCharsAux cs (c :: cur)

/-- `arn.split(":")`. -/
def splitColon (s : String) : List String :=
  (splitCharsAux s.data []).map List.asString

/-- `resource_arn.split(":")[2]`; `none` models the `IndexError` raised when
the arn has fewer than 3 colon-delimited segments. -/
def resource_type (arn : String) : Option String := (splitColon arn)[2]?

/-- `set.add` on a set kept as a first-occurrence-ordered duplicate-free
list. -/
def insertKey (acc : List String) (k : String) : List String :=
  if acc.contains k then acc else acc ++ [k]

/-- The `all_tags` set of `json_to_csv`: every tag key seen across the
resources. -/
def allTagKeys (resources : List Resource) : List String :=
  (resources.flatMap (fun r => r.tags.map Tag.key)).foldl insertKey []

/-- `sorted_tags = sorted(list(all_tags))`. -/
def sorted_tags (resources : List Resource) : List String :=
  List.insertionSort (fun a b : String => a ≤ b) (allTagKeys resources)

/-- `tag_values = {tag: 'N/A' for tag in sorted_tags}`: the dictionary is a
partial map whose domain is the key universe. -/
def initTagValues (keyUniverse : List String) : String → Option String :=
  fun k => if keyUniverse.contains k then some "N/A" else none

/-- One iteration of the fill loop:
`if tag["Key"] in tag_values: tag_values[tag["Key"]] = tag["Value"]`. -/
def fillStep (m : String → Option String) (t : Tag) : String → Option String :=
  if (m t.key).isSome then fun k => if k = t.key then some t.value else m k
  else m

/-- The filled `tag_values` dictionary for one resource. -/
def fillTagValues (keyUniverse : List String) (tags : List Tag) :
    String → Option String :=
  tags.foldl fillStep (initTagValues keyUniverse)

/-- `tag_values.get(k, 'N/A')`. -/
def tagValuesGet (keyUniverse : List String) (tags : List Tag) (k : String) :
    String :=
  (fillTagValues keyUniverse tags k).getD "N/A"

/-- The value the fill loop leaves behind for key `k`: the last matching tag
wins; `"N/A"` when no tag matches. -/
def lastMatchValue (tags : List Tag) (k : String) : String :=
  tags.foldl (fun w t => if t.key = k then t.value else w) "N/A"

/-- The row-building loop of `json_to_csv`. `focus = none` is full mode,
`focus = some (focus_key, exclude_values)` focused mode; a `none` result
models the `IndexError` abort on a malformed arn. -/
def projectRows (keyUniverse : List String)
    (focus : Option (String × List String)) :
    List Resource → Option (List (List String))
  | [] => some []
  | r :: rest =>
    match resource_type r.arn with
    | none => none
    | some ty =>
        match focus with
        | none =>
            match projectRows keyUniverse none rest with
            | none => none
            | some rows =>
                some (([r.arn, ty]
                  ++ keyUniverse.map (tagValuesGet keyUniverse r.tags)) :: rows)
        | some (fk, ev) =>
            match projectRows keyUniverse (some (fk, ev)) rest with
            | none => none
            | some rows =>
                if ev.contains (tagValuesGet keyUniverse r.tags fk)
                then some rows
                else some ([r.arn, ty, tagValuesGet keyUniverse r.tags fk]
                  :: rows)

/-- `json_to_csv` minus the file write: the header and the data rows. -/
def json_to_csv (json_data : List Resource)
    (focus : Option (String × List String) := none) :
    Option (List String × List (List String)) :=
  let st := sorted_tags json_data
  let header := match focus with
    | some fe => ["Resource ARN", "Resource Type", fe.1]
    | none => ["Resource ARN", "Resource Type"] ++ st
  (projectRows st focus json_data).map (fun rows => (header, rows))

theorem fillStep_isSome (m : String → Option String) (t : Tag) (k : String) :
    ((fillStep m t) k).isSome = (m k).isSome := by
  unfold fillStep
  by_cases hs : (m t.key).isSome = true
  · rw [if_pos hs]
    by_cases hk : k = t.key
    · subst hk; simp [hs]
    · simp [hk]
  · rw [if_neg hs]

theorem foldl_fillStep_isSome (k : String) :
    ∀ (tags : List Tag) (m : String → Option String),
      ((tags.foldl fillStep m) k).isSome = (m k).isSome := by
  intro tags
  induction tags with
  | nil => intro m; rfl
  | cons t rest ih =>
      intro m
      rw [List.foldl_cons, ih (fillStep m t), fillStep_isSome]

theorem foldl_fillStep_apply (k : String) :
    ∀ (tags : List Tag) (m : String → Option String) (v : String),
      m k = some v →
      (tags.foldl fillStep m) k
        = some (tags.foldl (fun w t => if t.key = k then t.value else w) v) := by
  intro tags
  induction tags with
  | nil => intro m v h; simpa using h
  | cons t rest ih =>
      intro m v h
      rw [List.foldl_cons, List.foldl_cons]
      by_cases hs : (m t.key).isSome = true
      · by_cases hk : t.key = k
        · subst hk
          have hstep : (fillStep m t) t.key = some t.value := by
            unfold fillStep; rw [if_pos hs]; simp
          rw [if_pos rfl]
          exact ih (fillStep m t) t.value hstep
        · have hstep : (fillStep m t) k = some v := by
            unfold fillStep; rw [if_pos hs]
            have hk2 : ¬ (k = t.key) := fun he => hk he.symm
            simp [hk2, h]
          rw [if_neg hk]
          exact ih (fillStep m t) v hstep
      · have hmt : (fillStep m t) = m := by unfold fillStep; rw [if_neg hs]
        have hk : ¬ (t.key = k) := by
          intro he; rw [he, h] at hs; simp at hs
        rw [if_neg hk, hmt]
        exact ih m v h

theorem fillTagValues_apply (keyUniverse : List String) (tags : List Tag)
    (k : String) :
    fillTagValues keyUniverse tags k
      = if keyUniverse.contains k then some (lastMatchValue tags k)
        else none := by
  by_cases hc : keyUniverse.contains k = true
  · have hm : k ∈ keyUniverse := by simpa using hc
    rw [if_pos hc]
    exact foldl_fillStep_apply k tags _ "N/A" (by simp [initTagValues, hm])
  · have hm : k ∉ keyUniverse := by simpa using hc
    rw [if_neg hc]
    have h1 : (fillTagValues keyUniverse tags k).isSome = false := by
      unfold fillTagValues
      rw [foldl_fillStep_isSome]
      simp [initTagValues, hm]
    exact Option.not_isSome_iff_eq_none.mp (by simp [h1])

theorem tagValuesGet_eq (keyUniverse : List String) (tags : List Tag)
    (k : String) :
    tagValuesGet keyUniverse tags k
      = if keyUniverse.contains k then lastMatchValue tags k else "N/A" := by
  unfold tagValuesGet
  rw [fillTagValues_apply]
  by_cases hc : keyUniverse.contains k = true
  · rw [if_pos hc, if_pos hc]; rfl
  · rw [if_neg hc, if_neg hc]; rfl

theorem foldl_lastMatch_no_match (k : String) :
    ∀ (tags : List Tag) (w : String), (∀ t ∈ tags, t.key ≠ k) →
      tags.foldl (fun w t => if t.key = k then t.value else w) w = w := by
  intro tags
  induction tags with
  | nil => intro w _; rfl
  | cons t rest ih =>
      intro w h
      rw [List.foldl_cons, if_neg (h t (by simp))]
      exact ih w (fun u hu => h u (by simp [hu]))

theorem lastMatchValue_of_no_match (tags : List Tag) (k : String)
    (h : ∀ t ∈ tags, t.key ≠ k) : lastMatchValue tags k = "N/A" :=
  foldl_lastMatch_no_match k tags "N/A" h

theorem lastMatchValue_last (pre post : List Tag) (t : Tag)
    (h : ∀ u ∈ post, u.key ≠ t.key) :
    lastMatchValue (pre ++ t :: post) t.key = t.value := by
  unfold lastMatchValue
  rw [List.foldl_append, List.foldl_cons, if_pos rfl]
  exact foldl_lastMatch_no_match t.key post t.value h

/-- Claim C4 counterexample: with duplicate keys, Team→a followed by Team→b,
the projector resolves Team to "b": the LAST match wins, not the first. -/
theorem claim_C4_counterexample :
    tagValuesGet ["Team"] [⟨"Team", "a"⟩, ⟨"Team", "b"⟩] "Team" = "b"
  ∧ ("b" : String) ≠ "a" :=
  ⟨rfl, by decide⟩

/-- Claim C4 (amended): in the Matrix Projector the value for a key in the
key universe is resolved by scanning the resource's tag sequence with the
last match winning when duplicate keys exist; absence of the key — no
matching tag, or a key outside the universe — yields the sentinel "N/A". -/
theorem claim_C4_value_resolution_amended :
    (∀ keyUniverse tags k, keyUniverse.contains k = true →
        (∀ t ∈ tags, t.key ≠ k) → tagValuesGet keyUniverse tags k = "N/A")
  ∧ (∀ (keyUniverse : List String) (pre post : List Tag) (t : Tag),
        keyUniverse.contains t.key = true → (∀ u ∈ post, u.key ≠ t.key) →
        tagValuesGet keyUniverse (pre ++ t :: post) t.key = t.value)
  ∧ (∀ keyUniverse tags k, keyUniverse.contains k = false →
        tagValuesGet keyUniverse tags k = "N/A") := by
  refine ⟨?_, ?_, ?_⟩
  · intro u tags k hc h
    rw [tagValuesGet_eq, if_pos hc, lastMatchValue_of_no_match tags k h]
  · intro u pre post t hc h
    rw [tagValuesGet_eq, if_pos hc, lastMatchValue_last pre post t h]
  · intro u tags k hc
    rw [tagValuesGet_eq, if_neg (by simpa using hc)]

/-- Claim C4 amended witness: the duplicate-key resolution at a concrete
input, via the last-match rule. -/
theorem claim_C4_value_resolution_amended_witness :
    tagValuesGet ["Team"] [⟨"Team", "a"⟩, ⟨"Team", "b"⟩] "Team" = "b" :=
  claim_C4_value_resolution_amended.2.1 ["Team"] [⟨"Team", "a"⟩] []
    ⟨"Team", "b"⟩ (by decide) (by simp)

theorem mem_insertKey (acc : List String) (k x : String) :
    x ∈ insertKey acc k ↔ x ∈ acc ∨ x = k := by
  unfold insertKey
  by_cases h : acc.contains k = true
  · have hk : k ∈ acc := by simpa using h
    rw [if_pos h]
    constructor
    · exact Or.inl
    · rintro (hx | rfl)
      · exact hx
      · exact hk
  · rw [if_neg h]
    simp

theorem mem_foldl_insertKey :
    ∀ (l acc : List String) (x : String),
      x ∈ l.foldl insertKey acc ↔ x ∈ acc ∨ x ∈ l := by
  intro l
  induction l with
  | nil => intro acc x; simp
  | cons a l ih =>
      intro acc x
      rw [List.foldl_cons, ih, mem_insertKey]
      simp [or_assoc]

theorem nodup_insertKey (acc : List String) (k : String) (h : acc.Nodup) :
    (insertKey acc k).Nodup := by
  unfold insertKey
  by_cases hc : acc.contains k = true
  · rw [if_pos hc]; exact h
  · have hk : k ∉ acc := by simpa using hc
    rw [if_neg hc]
    simp [List.nodup_append, h, hk]

theorem nodup_foldl_insertKey :
    ∀ (l acc : List String), acc.Nodup → (l.foldl insertKey acc).Nodup := by
  intro l
  induction l with
  | nil => intro acc h; exact h
  | cons a l ih =>
      intro acc h
      rw [List.foldl_cons]
      exact ih _ (nodup_insertKey acc a h)

theorem mem_allTagKeys (resources : List Resource) (k : String) :
    k ∈ allTagKeys resources ↔ ∃ r ∈ resources, ∃ t ∈ r.tags, t.key = k := by
  unfold allTagKeys
  rw [mem_foldl_insertKey]
  simp [List.mem_flatMap, eq_comm]

theorem sorted_tags_mem (resources : List Resource) (k : String) :
    k ∈ sorted_tags resources ↔ ∃ r ∈ resources, ∃ t ∈ r.tags, t.key = k := by
  unfold sorted_tags
  rw [(List.perm_insertionSort _ _).mem_iff, mem_allTagKeys]

theorem sorted_tags_nodup (resources : List Resource) :
    (sorted_tags resources).Nodup :=
  ((List.perm_insertionSort _ _).nodup_iff).mpr
    (nodup_foldl_insertKey _ [] List.nodup_nil)

theorem sorted_tags_sorted (resources : List Resource) :
    List.Sorted (fun a b : String => a ≤ b) (sorted_tags resources) :=
  List.sorted_insertionSort _ _

theorem projectRows_full_inv (keyUniverse : List String) :
    ∀ (resources : List Resource) (rows : List (List String)),
      projectRows keyUniverse none resources = some rows →
      rows = resources.map (fun r =>
        [r.arn, (resource_type r.arn).getD "N/A"]
          ++ keyUniverse.map (tagValuesGet keyUniverse r.tags)) := by
  intro resources
  induction resources with
  | nil =>
      intro rows h
      simp only [projectRows, Option.some.injEq] at h
      subst h
      rfl
  | cons r rest ih =>
      intro rows h
      cases hty : resource_type r.arn with
      | none => simp [projectRows, hty] at h
      | some ty =>
          cases hrec : projectRows keyUniverse none rest with
          | none => simp [projectRows, hty, hrec] at h
          | some rows2 =>
              simp only [projectRows, hty, hrec, Option.some.injEq] at h
              subst h
              have h2 := ih rows2 hrec
              simp only [List.map_cons, hty, Option.getD_some, ← h2]

theorem projectRows_isSome (keyUniverse : List String)
    (focus : Option (String × List String)) :
    ∀ (resources : List Resource),
      (∀ r ∈ resources, (resource_type r.arn).isSome = true) →
      (projectRows keyUniverse focus resources).isSome = true := by
  intro resources
  induction resources with
  | nil => intro _; rfl
  | cons r rest ih =>
      intro h
      have hty : (resource_type r.arn).isSome = true := h r (by simp)
      obtain ⟨ty, hty2⟩ := Option.isSome_iff_exists.mp hty
      have hrest := ih (fun s hs => h s (by simp [hs]))
      obtain ⟨rows2, hrec⟩ := Option.isSome_iff_exists.mp hrest
      cases focus with
      | none => simp [projectRows, hty2, hrec]
      | some fe =>
          obtain ⟨fk, ev⟩ := fe
          by_cases hm : tagValuesGet keyUniverse r.tags fk ∈ ev
          · simp [projectRows, hty2, hrec, hm]
          · simp [projectRows, hty2, hrec, hm]

theorem projectRows_focused_eq (keyUniverse : List String) (fk : String)
    (ev : List String) :
    ∀ (resources : List Resource),
      (∀ r ∈ resources, (resource_type r.arn).isSome = true) →
      projectRows keyUniverse (some (fk, ev)) resources
        = some ((resources.filter (fun r =>
              !(ev.contains (tagValuesGet keyUniverse r.tags fk)))).map
            (fun r => [r.arn, (resource_type r.arn).getD "N/A",
                       tagValuesGet keyUniverse r.tags fk])) := by
  intro resources
  induction resources with
  | nil => intro _; rfl
  | cons r rest ih =>
      intro h
      have hty : (resource_type r.arn).isSome = true := h r (by simp)
      obtain ⟨ty, hty2⟩ := Option.isSome_iff_exists.mp hty
      have hrec := ih (fun s hs => h s (by simp [hs]))
      by_cases hm : tagValuesGet keyUniverse r.tags fk ∈ ev
      · simp [projectRows, hty2, hrec, hm, List.filter_cons]
      · simp [projectRows, hty2, hrec, hm, List.filter_cons]

theorem projectRows_full_eq (keyUniverse : List String)
    (resources : List Resource)
    (h : ∀ r ∈ resources, (resource_type r.arn).isSome = true) :
    projectRows keyUniverse none resources
      = some (resources.map (fun r =>
          [r.arn, (resource_type r.arn).getD "N/A"]
            ++ keyUniverse.map (tagValuesGet keyUniverse r.tags))) := by
  have h1 := projectRows_isSome keyUniverse none resources h
  obtain ⟨rows, hrows⟩ := Option.isSome_iff_exists.mp h1
  rw [hrows, projectRows_full_inv keyUniverse resources rows hrows]

/-- Claim C6: in full mode the column set is the lexicographically sorted,
duplicate-free set of exactly the tag keys present in the input; every
emitted row is `[arn, type]` followed by one value per column, hence has
exactly `2 + |columns|` entries; and a resource carrying no tag with key `k`
resolves that column to the sentinel "N/A". -/
theorem claim_C6_full_mode_columns (resources : List Resource) :
    List.Sorted (fun a b : String => a ≤ b) (sorted_tags resources)
  ∧ (sorted_tags resources).Nodup
  ∧ (∀ k, k ∈ sorted_tags resources
        ↔ ∃ r ∈ resources, ∃ t ∈ r.tags, t.key = k)
  ∧ (∀ rows, projectRows (sorted_tags resources) none resources = some rows →
        ∀ row ∈ rows, row.length = 2 + (sorted_tags resources).length)
  ∧ (∀ (r : Resource) (k : String), (∀ t ∈ r.tags, t.key ≠ k) →
        tagValuesGet (sorted_tags resources) r.tags k = "N/A") := by
  refine ⟨sorted_tags_sorted resources, sorted_tags_nodup resources,
    sorted_tags_mem resources, ?_, ?_⟩
  · intro rows h row hrow
    rw [projectRows_full_inv _ _ _ h] at hrow
    obtain ⟨r, _, rfl⟩ := List.mem_map.mp hrow
    simp only [List.length_append, List.length_map, List.length_cons,
      List.length_nil]
  · intro r k h
    rw [tagValuesGet_eq]
    by_cases hc : (sorted_tags resources).contains k = true
    · rw [if_pos hc, lastMatchValue_of_no_match r.tags k h]
    · rw [if_neg hc]

/-- Claim C6 witness: with no input resources the column set is empty and a
tag-less resource resolves any column to "N/A". -/
theorem claim_C6_full_mode_columns_witness :
    tagValuesGet (sorted_tags []) [] "Env" = "N/A" :=
  (claim_C6_full_mode_columns []).2.2.2.2 ⟨"x", []⟩ "Env" (by simp)

/-- Claim C7: in focused mode the emitted rows are exactly one per input
resource whose resolved value for the focus key is not in `exclude_values`,
in input order (an excluded resource is omitted entirely), so the row count
equals the number of non-excluded input resources. -/
theorem claim_C7_focused_mode_rows (resources : List Resource) (fk : String)
    (ev : List String)
    (h : ∀ r ∈ resources, (resource_type r.arn).isSome = true) :
    (projectRows (sorted_tags resources) (some (fk, ev)) resources
       = some ((resources.filter (fun r =>
             !(ev.contains
                 (tagValuesGet (sorted_tags resources) r.tags fk)))).map
           (fun r => [r.arn, (resource_type r.arn).getD "N/A",
                      tagValuesGet (sorted_tags resources) r.tags fk])))
  ∧ (∀ rows, projectRows (sorted_tags resources) (some (fk, ev)) resources
        = some rows →
      rows.length = (resources.filter (fun r =>
          !(ev.contains
              (tagValuesGet (sorted_tags resources) r.tags fk)))).length) := by
  have h1 := projectRows_focused_eq (sorted_tags resources) fk ev resources h
  refine ⟨h1, ?_⟩
  intro rows h2
  rw [h1] at h2
  simp only [Option.some.injEq] at h2
  subst h2
  simp

/-- Claim C7 witness: a single resource whose Env value "prod" is excluded
yields no row at all. -/
theorem claim_C7_focused_mode_rows_witness :
    projectRows (sorted_tags [⟨"arn:aws:s3:b", [⟨"Env", "prod"⟩]⟩])
        (some ("Env", ["prod"])) [⟨"arn:aws:s3:b", [⟨"Env", "prod"⟩]⟩]
      = some [] :=
  (claim_C7_focused_mode_rows [⟨"arn:aws:s3:b", [⟨"Env", "prod"⟩]⟩] "Env"
    ["prod"] (by decide)).1

/-- Claim C9 counterexample: the arn "badarn" has one colon-delimited
segment; the type derivation fails (modelled `none`, the `IndexError`)
instead of classifying the type as "unknown", and projecting that resource
aborts instead of emitting a row. -/
theorem claim_C9_counterexample :
    resource_type "badarn" = none
  ∧ resource_type "badarn" ≠ some "unknown"
  ∧ projectRows (sorted_tags [⟨"badarn", []⟩]) none [⟨"badarn", []⟩]
      = none := by
  refine ⟨rfl, by decide, rfl⟩

/-- Claim C9 (amended): an arn with fewer than 3 colon-delimited segments
makes the type derivation raise `IndexError`, aborting the whole projection —
no recoverable per-resource "unknown" classification happens; for an arn with
at least 3 segments the type is the third segment. -/
theorem claim_C9_malformed_arn_amended :
    (∀ arn : String, (splitColon arn).length ≤ 2 → resource_type arn = none)
  ∧ (∀ (arn : String) (h : 2 < (splitColon arn).length),
        resource_type arn = some ((splitColon arn).get ⟨2, h⟩))
  ∧ (∀ keyUniverse focus resources,
        (∃ r ∈ resources, resource_type r.arn = none) →
        projectRows keyUniverse focus resources = none) := by
  refine ⟨?_, ?_, ?_⟩
  · intro arn h
    exact List.getElem?_eq_none h
  · intro arn h
    exact List.getElem?_eq_getElem h
  · intro u focus resources
    induction resources with
    | nil => rintro ⟨r, hr, _⟩; simp at hr
    | cons r rest ih =>
        rintro ⟨s, hs, hnone⟩
        rcases List.mem_cons.mp hs with rfl | hs2
        · simp [projectRows, hnone]
        · cases hty : resource_type r.arn with
          | none => simp [projectRows, hty]
          | some ty =>
              have hrec := ih ⟨s, hs2, hnone⟩
              cases focus with
              | none => simp [projectRows, hty, hrec]
              | some fe =>
                  obtain ⟨fk, ev⟩ := fe
                  simp [projectRows, hty, hrec]

/-- Claim C9 amended witness: a one-segment arn makes the type derivation
fail. -/
theorem claim_C9_malformed_arn_amended_witness : resource_type "x" = none :=
  claim_C9_malformed_arn_amended.1 "x" (by decide)

/-- Claim C10: in full mode, under well-formed arns, the projector emits
exactly one row per input resource, in input order — `[arn, type]` plus one
resolved value per column — so no resource is ever dropped; a resource with
an empty tag list resolves every column to "N/A". -/
theorem claim_C10_full_mode_one_row_per_resource (resources : List Resource)
    (h : ∀ r ∈ resources, (resource_type r.arn).isSome = true) :
    (projectRows (sorted_tags resources) none resources
       = some (resources.map (fun r =>
           [r.arn, (resource_type r.arn).getD "N/A"]
             ++ (sorted_tags resources).map
                  (tagValuesGet (sorted_tags resources) r.tags))))
  ∧ (∀ rows, projectRows (sorted_tags resources) none resources = some rows →
        rows.length = resources.length)
  ∧ (∀ (keyUniverse : List String) (k : String),
        tagValuesGet keyUniverse [] k = "N/A") := by
  have h1 := projectRows_full_eq (sorted_tags resources) resources h
  refine ⟨h1, ?_, ?_⟩
  · intro rows h2
    rw [h1] at h2
    simp only [Option.some.injEq] at h2
    subst h2
    simp
  · intro u k
    rw [tagValuesGet_eq]
    by_cases hc : u.contains k = true
    · rw [if_pos hc]; rfl
    · rw [if_neg hc]

/-- Claim C10 witness: a single tag-less resource still yields its one row,
with no tag columns. -/
theorem claim_C10_full_mode_one_row_per_resource_witness :
    projectRows (sorted_tags [(⟨"arn:aws:s3:b", []⟩ : Resource)]) none
        [⟨"arn:aws:s3:b", []⟩]
      = some [["arn:aws:s3:b", "s3"]] :=
  (claim_C10_full_mode_one_row_per_resource [⟨"arn:aws:s3:b", []⟩]
    (by decide)).1

/-! ## Cross-environment aggregator (`generate_summary_csv` /
`generate_focused_summary_csv`, analyze.py lines 145-217) -/

/-- The break-on-first-match loop of `generate_focused_summary_csv`: does the
resource carry at least one tag passing the focused test? -/
def has_focused_tag (filters : FilterRule) (r : Resource) : Bool :=
  r.tags.any (focusedTagMatch filters)

/-- The per-environment counters of `generate_focused_summary_csv`:
(total resources, resources with focused tags, resources missing them). -/
def focused_summary_counts (filters : FilterRule) (tags : List Resource) :
    Nat × Nat × Nat :=
  (tags.length, tags.countP (has_focused_tag filters),
   tags.countP (fun r => !has_focused_tag filters r))

/-- Whether an environment's resource list carries a tag with key `k`
(`env in all_tags[key]` in `generate_summary_csv`). -/
def env_has_key (resources : List Resource) (k : String) : Bool :=
  resources.any (fun r => r.tags.any (fun t => t.key == k))

/-- The keys of the `all_tags` defaultdict of `generate_summary_csv`, in
first-occurrence order while scanning environments, resources, tags. -/
def observedKeys (tagData : List (String × List Resource)) : List String :=
  (tagData.flatMap (fun p => p.2.flatMap (fun r =>
    r.tags.map Tag.key))).foldl insertKey []

/-- One row of `generate_summary_csv`: the tag key, the per-environment
yes/no presence flags in environment order, and the de-duplicated union of
values observed for the key across all environments. -/
structure SummaryRow where
  tagKey : String
  presence : List String
  possibleValues : List String
deriving DecidableEq, Repr

/-- The rows of `generate_summary_csv`: one per key of `all_tags`. -/
def generate_summary_rows (tagData : List (String × List Resource)) :
    List SummaryRow :=
  (observedKeys tagData).map (fun k =>
    { tagKey := k
    , presence := tagData.map (fun p =>
        if env_has_key p.2 k then "yes" else "no")
    , possibleValues :=
        (tagData.flatMap (fun p => p.2.flatMap (fun r =>
          (r.tags.filter (fun t => t.key == k)).map Tag.value))).foldl
          insertKey [] })

theorem countP_add_countP_not {α : Type} (l : List α) (q : α → Bool) :
    l.countP q + l.countP (fun a => !q a) = l.length := by
  rw [List.length_eq_countP_add_countP q]
  congr 1
  refine List.countP_congr ?_
  intro a _
  cases q a <;> simp

theorem mem_observedKeys (tagData : List (String × List Resource))
    (k : String) :
    k ∈ observedKeys tagData
      ↔ ∃ p ∈ tagData, ∃ r ∈ p.2, ∃ t ∈ r.tags, t.key = k := by
  unfold observedKeys
  rw [mem_foldl_insertKey]
  simp [List.mem_flatMap, eq_comm]

theorem nodup_observedKeys (tagData : List (String × List Resource)) :
    (observedKeys tagData).Nodup :=
  nodup_foldl_insertKey _ [] List.nodup_nil

/-- Claim C8: the aggregator's outputs reconcile. (1) For every environment,
resources-with-focused-tags plus resources-missing-focused-tags equals the
environment's total resource count. (2) Every tag key present in some
environment's ResourceSet appears in exactly one presence-summary row, and
any row for that key carries the per-environment flag list that marks "yes"
exactly the environments observing the key. -/
theorem claim_C8_aggregator_reconciliation
    (filters : FilterRule) (tagData : List (String × List Resource)) :
    (∀ p ∈ tagData,
        (focused_summary_counts filters p.2).2.1
          + (focused_summary_counts filters p.2).2.2
          = (focused_summary_counts filters p.2).1)
  ∧ (∀ k, (∃ p ∈ tagData, ∃ r ∈ p.2, ∃ t ∈ r.tags, t.key = k) →
        ((generate_summary_rows tagData).countP
            (fun row => row.tagKey == k) = 1
          ∧ ∀ row ∈ generate_summary_rows tagData, row.tagKey = k →
              row.presence = tagData.map (fun p =>
                if env_has_key p.2 k then "yes" else "no"))) := by
  constructor
  · intro p _
    exact countP_add_countP_not p.2 (has_focused_tag filters)
  · intro k hk
    have hmem : k ∈ observedKeys tagData := (mem_observedKeys tagData k).mpr hk
    constructor
    · rw [generate_summary_rows, List.countP_map]
      exact List.count_eq_one_of_mem (nodup_observedKeys tagData) hmem
    · intro row hrow hkey
      rw [generate_summary_rows] at hrow
      obtain ⟨k2, _, rfl⟩ := List.mem_map.mp hrow
      have : k2 = k := hkey
      rw [this]

/-- Claim C8 witness: one environment with one resource reconciles:
1 matching + 0 missing = 1 total. -/
theorem claim_C8_aggregator_reconciliation_witness :
    (focused_summary_counts ⟨["Team"], [], [], []⟩
        [⟨"arn:aws:s3:b", [⟨"Team", "x"⟩]⟩]).2.1
      + (focused_summary_counts ⟨["Team"], [], [], []⟩
          [⟨"arn:aws:s3:b", [⟨"Team", "x"⟩]⟩]).2.2
      = (focused_summary_counts ⟨["Team"], [], [], []⟩
          [⟨"arn:aws:s3:b", [⟨"Team", "x"⟩]⟩]).1 :=
  (claim_C8_aggregator_reconciliation ⟨["Team"], [], [], []⟩
    [("dev", [⟨"arn:aws:s3:b", [⟨"Team", "x"⟩]⟩])]).1
    ("dev", [⟨"arn:aws:s3:b", [⟨"Team", "x"⟩]⟩]) (by simp)

end AwsTagAnalyzer
